import Mathlib

/-!
Verification of the population EDA pipeline in `src/app_eda.py`.

The pipeline ingests a table of yearly regional population / births / deaths
rows, cleans it (`load_population_df`), and derives views:
a 2035 national forecast (`predict_pop_2035`), a 5-year regional delta
ranking, a top-K year-over-year diff extraction, and two pivots.
All definitions below are shallow embeddings of the pandas code:
DataFrames become lists of records, pandas sorts become key-based
insertion sorts (stable), NaN cells become `Option.none`, and the
float `mean` / `int()` pair becomes an exact rational mean truncated
toward zero.
-/

namespace PopEDA

/-- One cleaned row of `population_trends.csv` after `load_population_df`:
columns 지역 (region), 연도 (year), 인구 (population), 출생아수(명) (births),
사망자수(명) (deaths) and the derived `region_en` column (`none` models the
NaN produced by `.map` on an unknown region). -/
structure Row where
  region : String
  year : Int
  pop : Int
  births : Int
  deaths : Int
  regionEn : Option String := none
deriving Repr, DecidableEq

/-- A raw cell of the three numeric columns before cleaning: either a value
that `pd.to_numeric` parses (modelled as an integer), the textual placeholder
`"-"` used by the 세종 rows, or any other non-numeric / missing content. -/
inductive RawField where
  | num (n : Int)
  | dash
  | junk
deriving Repr, DecidableEq

/-- One raw row of the uploaded CSV. -/
structure RawRow where
  region : String
  year : Int
  pop : RawField
  births : RawField
  deaths : RawField
deriving Repr, DecidableEq

/-- The `REGION_KR2EN` literal of the source. -/
def REGION_KR2EN : List (String × String) :=
  [("서울", "Seoul"), ("부산", "Busan"), ("대구", "Daegu"), ("인천", "Incheon"),
   ("광주", "Gwangju"), ("대전", "Daejeon"), ("울산", "Ulsan"), ("세종", "Sejong"),
   ("경기", "Gyeonggi"), ("강원", "Gangwon"), ("충북", "Chungbuk"), ("충남", "Chungnam"),
   ("전북", "Jeonbuk"), ("전남", "Jeonnam"), ("경북", "Gyeongbuk"), ("경남", "Gyeongnam"),
   ("제주", "Jeju"), ("전국", "National")]

/-- `df["지역"].map(REGION_KR2EN)`: lookup, `none` for an unmapped code. -/
def regionKr2En (k : String) : Option String :=
  REGION_KR2EN.lookup k

/-- `.replace("-", 0)` on a single cell. -/
def replaceDash : RawField → RawField
  | RawField.dash => RawField.num 0
  | f => f

/-- Step ① of `load_population_df`: on the rows selected by
`df["지역"] == "세종"`, replace `"-"` by `0` in the three numeric columns;
all other rows are untouched. -/
def sejongReplace (r : RawRow) : RawRow :=
  if r.region = "세종" then
    { r with pop := replaceDash r.pop, births := replaceDash r.births,
             deaths := replaceDash r.deaths }
  else r

/-- Step ② of `load_population_df`:
`pd.to_numeric(errors="coerce").fillna(0).astype(int)` on one cell. -/
def coerceNum : RawField → Int
  | RawField.num n => n
  | RawField.dash => 0
  | RawField.junk => 0

/-- Steps ② and ③ of `load_population_df` on one row: numeric coercion of the
three columns plus the derived `region_en` column. -/
def cleanRow (r : RawRow) : Row :=
  { region := r.region, year := r.year, pop := coerceNum r.pop,
    births := coerceNum r.births, deaths := coerceNum r.deaths,
    regionEn := regionKr2En r.region }

/-- `load_population_df`: the whole cleaning pass, row by row. -/
def load_population_df (t : List RawRow) : List Row :=
  (t.map sejongReplace).map cleanRow

/-- Python `int()` applied to an exact rational: truncation toward zero. -/
def ratTrunc (q : ℚ) : Int :=
  q.num.tdiv q.den

/-- Exact value of pandas `.mean()` on a list of integers (the empty case,
where pandas yields NaN, is guarded separately at each use site). -/
def meanZ (l : List Int) : ℚ :=
  (l.sum : ℚ) / (l.length : ℚ)

/-- `int((...).mean())` on a list of integers: truncation toward zero of the
exact mean, computed as truncated integer division; the theorem
`intMean_eq_ratTrunc` below proves that this equals `ratTrunc (meanZ l)`. -/
def intMean (l : List Int) : Int :=
  l.sum.tdiv (l.length : Int)

/-- The sort relation induced by a key function; pandas
`sort_values`ordering is modelled key-based and stable. -/
def keyRel {α β : Type} (f : α → β) [LinearOrder β] : α → α → Prop :=
  fun a b => f a ≤ f b

instance {α β : Type} (f : α → β) [LinearOrder β] : DecidableRel (keyRel f) :=
  fun a b => inferInstanceAs (Decidable (f a ≤ f b))

instance {α β : Type} (f : α → β) [LinearOrder β] : IsTotal α (keyRel f) :=
  ⟨fun a b => le_total (f a) (f b)⟩

instance {α β : Type} (f : α → β) [LinearOrder β] : IsTrans α (keyRel f) :=
  ⟨fun _ _ _ h h2 => le_trans h h2⟩

/-- Stable sort by a key, the model of every `sort_values` in the source. -/
def keySorted {α β : Type} [LinearOrder β] (f : α → β) (l : List α) : List α :=
  l.insertionSort (keyRel f)

/-- `nat_df.sort_values("연도")`. -/
def sortByYear (l : List Row) : List Row :=
  keySorted (fun r => r.year) l

/-- `predict_pop_2035(nat_df)`:
`recent = nat_df.sort_values("연도").tail(3)`,
`annual_delta = int((recent births - deaths).mean())`,
`yrs = 2035 - recent["연도"].max()`,
`return int(nat_df.iloc[-1]["인구"] + annual_delta * yrs)`.
`none` models the exception raised on an empty national subset
(`int(nan)` / `iloc[-1]` on an empty frame); note that the base population
is taken from the last row of `nat_df` as passed, not from the sorted copy. -/
def predict_pop_2035 (nat : List Row) : Option Int :=
  match nat.getLast? with
  | none => none
  | some lastRow =>
    match (((sortByYear nat).drop (nat.length - 3)).map (fun r => r.year)).max? with
    | none => none
    | some m =>
      some (lastRow.pop +
        intMean (((sortByYear nat).drop (nat.length - 3)).map
          (fun r => r.births - r.deaths)) * (2035 - m))

/-- The national-trend view of the `EDA` page:
`nat = pop_df[pop_df["지역"] == "전국"].sort_values("연도")` followed by
`predict_pop_2035(nat)`. -/
def forecastView (l : List Row) : Option Int :=
  predict_pop_2035 (sortByYear (l.filter (fun r => r.region = "전국")))

/-- `pop_df[pop_df["연도"] == y].set_index("지역")["인구"]`:
the (region, population) association list of the rows of year `y`,
in DataFrame row order. -/
def rowsAt (l : List Row) (y : Int) : List (String × Int) :=
  (l.filter (fun r => r.year = y)).map (fun r => (r.region, r.pop))

/-- Series lookup by index label (first match). -/
def lookupFst (k : String) : List (String × Int) → Option Int
  | [] => none
  | (k2, v) :: rest => if k2 = k then some v else lookupFst k rest

/-- Index alignment of `latest - base`: if the two indexes are equal
(same labels, same order) the order is kept, otherwise pandas takes the
sorted union of the labels. -/
def alignIndex (a b : List String) : List String :=
  if a = b then a
  else keySorted (fun s : String => s.data) (a ++ b.filter (fun k => ¬ k ∈ a))

/-- One aligned cell of `latest - base`: `none` models the NaN produced when
the region is missing from one of the two years (outer alignment). -/
def deltaEntry (latest base : List (String × Int)) (k : String) : String × Option Int :=
  (k, match lookupFst k latest, lookupFst k base with
      | some pl, some pb => some (pl - pb)
      | _, _ => none)

/-- Sort key of `delta.sort_values(ascending=False)`: defined values in
decreasing order first, NaN (`none`) entries last. -/
def dkeyOpt (p : String × Option Int) : Bool ×ₗ Int :=
  match p.2 with
  | some x => toLex (false, -x)
  | none => toLex (true, 0)

/-- The aligned index of `latest - base` for the Regional Δ view. -/
def idxOf (l : List Row) (latestY : Int) : List String :=
  alignIndex ((rowsAt l latestY).map Prod.fst)
    ((rowsAt l (latestY - 4)).map Prod.fst)

/-- The aligned, national-dropped (but not yet sorted) delta Series of the
Regional Δ view. -/
def deltaList (l : List Row) (latestY : Int) : List (String × Option Int) :=
  ((idxOf l latestY).filter (fun k => ¬ k = "전국")).map
    (deltaEntry (rowsAt l latestY) (rowsAt l (latestY - 4)))

/-- The Regional Δ (5y) view:
`latest_year = pop_df["연도"].max(); base_year = latest_year - 4;`
`delta = (latest - base).drop("전국").sort_values(ascending=False)`.
`none` models the KeyError of `.drop("전국")` when the label is absent
(and the empty-frame failure). -/
def regionalDelta (l : List Row) : Option (List (String × Option Int)) :=
  match (l.map (fun r => r.year)).max? with
  | none => none
  | some latestY =>
    if "전국" ∈ idxOf l latestY then
      some (keySorted dkeyOpt (deltaList l latestY))
    else none

/-- `delta.head(3)`: the Top-3 rise list of the view. -/
def deltaTop3 (l : List Row) : Option (List (String × Option Int)) :=
  (regionalDelta l).map (fun o => o.take 3)

/-- `delta.tail(3)`: the Top-3 decline list of the view (the tail of the same
sorted sequence, not a re-sort). -/
def deltaBottom3 (l : List Row) : Option (List (String × Option Int)) :=
  (regionalDelta l).map (fun o => o.drop (o.length - 3))

/-- `groupby("지역")["인구"].diff()` over an already sorted frame: each row is
paired with `population - previous population` when the previous row belongs
to the same region, and with NaN (`none`) on the first row of each region. -/
def withDiffs : Option Row → List Row → List (Row × Option Int)
  | _, [] => []
  | prev, r :: rs =>
    (r, prev.bind (fun pv =>
        if pv.region = r.region then some (r.pop - pv.pop) else none)) ::
      withDiffs (some r) rs

/-- `pop_df.sort_values(["지역", "연도"])`: lexicographic on (region, year);
the region key is compared as its character list, which carries the same
code-point order as Python string comparison. -/
def sortRegionYear (l : List Row) : List Row :=
  keySorted (fun r => toLex (r.region.data, r.year)) l

/-- The candidate pool of the Top Δ records view: sort by (region, year),
attach year-over-year diffs, drop the 전국 rows, drop the NaN (first-year)
rows. -/
def yoyCandidates (l : List Row) : List (Row × Int) :=
  ((withDiffs none (sortRegionYear l)).filter
      (fun p => ¬ p.1.region = "전국")).filterMap
    (fun p => p.2.map (fun d => (p.1, d)))

/-- `diff_df.nlargest(k, "diff")` (k = 100 in the source): NaN rows dropped,
rows sorted by decreasing signed diff, ties keeping the first occurrence,
first `k` rows returned. -/
def topYearOverYearChanges (l : List Row) (k : Nat) : List (Row × Int) :=
  (keySorted (fun p : Row × Int => -p.2) (yoyCandidates l)).take k

/-- `pop_df.pivot_table(index="region_en", columns="연도", values="인구")`
followed by `.loc[index != "National"]`, read as a sparse lookup:
`none` is an absent cell, a present cell holds the `aggfunc="mean"` value. -/
def regionByYearMatrix (l : List Row) (regEn : String) (y : Int) : Option ℚ :=
  if regEn = "National" then none
  else
    let vals := (l.filter (fun r => r.regionEn = some regEn ∧ r.year = y)).map
      (fun r => r.pop)
    if vals.length = 0 then none else some (meanZ vals)

/-- `pop_df[pop_df["지역"] != "전국"].pivot_table(index="연도",
columns="region_en", values="인구", aggfunc="sum")` as a sparse lookup. -/
def yearByRegionSums (l : List Row) (y : Int) (regEn : String) : Option Int :=
  let vals := ((l.filter (fun r => ¬ r.region = "전국")).filter
      (fun r => r.year = y ∧ r.regionEn = some regEn)).map (fun r => r.pop)
  if vals.length = 0 then none else some vals.sum

/-- The data-model invariant: exactly one record per (region, year) pair. -/
def uniquePairs (l : List Row) : Prop :=
  (l.map (fun r => (r.region, r.year))).Nodup

instance (l : List Row) : Decidable (uniquePairs l) :=
  inferInstanceAs (Decidable (List.Nodup _))

/-! ### Generic facts about the key-based sort -/

theorem keySorted_perm {α β : Type} [LinearOrder β] (f : α → β) (l : List α) :
    List.Perm (keySorted f l) l :=
  List.perm_insertionSort (keyRel f) l

theorem keySorted_sorted {α β : Type} [LinearOrder β] (f : α → β) (l : List α) :
    List.Sorted (keyRel f) (keySorted f l) :=
  List.sorted_insertionSort (keyRel f) l

theorem keySorted_eq_self {α β : Type} [LinearOrder β] (f : α → β) {l : List α}
    (h : List.Sorted (keyRel f) l) : keySorted f l = l :=
  List.Sorted.insertionSort_eq h

/-- A permutation between two lists that are both strictly sorted on the same
key forces the lists to be equal. -/
theorem eq_of_perm_of_pairwise_lt {α β : Type} [LinearOrder β] (f : α → β) :
    ∀ {l₁ l₂ : List α}, List.Perm l₁ l₂ → l₁.Pairwise (fun a b => f a < f b) →
      l₂.Pairwise (fun a b => f a < f b) → l₁ = l₂ := by
  intro l₁
  induction l₁ with
  | nil =>
    intro l₂ hp _ _
    exact (hp.nil_eq).symm ▸ rfl
  | cons a t ih =>
    intro l₂ hp h₁ h₂
    cases l₂ with
    | nil => exact absurd hp.symm (by simp)
    | cons b t₂ =>
      have hab : a = b := by
        by_contra hne
        have ha2 : a ∈ b :: t₂ := hp.mem_iff.mp (List.mem_cons_self a t)
        have hat2 : a ∈ t₂ := by
          cases List.mem_cons.mp ha2 with
          | inl h => exact absurd h hne
          | inr h => exact h
        have hba : f b < f a := (List.pairwise_cons.mp h₂).1 a hat2
        have hb1 : b ∈ a :: t := hp.symm.mem_iff.mp (List.mem_cons_self b t₂)
        have hbt : b ∈ t := by
          cases List.mem_cons.mp hb1 with
          | inl h => exact absurd h.symm hne
          | inr h => exact h
        have hab2 : f a < f b := (List.pairwise_cons.mp h₁).1 b hbt
        exact absurd hab2 (not_lt_of_lt hba)
      subst hab
      have htp : List.Perm t t₂ := hp.cons_inv
      have := ih htp (List.pairwise_cons.mp h₁).2 (List.pairwise_cons.mp h₂).2
      rw [this]

theorem keySorted_pairwise_lt {α β : Type} [LinearOrder β] (f : α → β) {l : List α}
    (hn : (l.map f).Nodup) : (keySorted f l).Pairwise (fun a b => f a < f b) := by
  have hs : (keySorted f l).Pairwise (keyRel f) := keySorted_sorted f l
  have hn2 : ((keySorted f l).map f).Nodup :=
    (((keySorted_perm f l).map f).nodup_iff).mpr hn
  have hne : (keySorted f l).Pairwise (fun a b => f a ≠ f b) :=
    (List.pairwise_map).mp hn2
  exact (hs.and hne).imp (fun h => lt_of_le_of_ne h.1 h.2)

/-- Sorting by a key with no duplicate key values is a function of the
multiset of elements only. -/
theorem keySorted_eq_of_perm {α β : Type} [LinearOrder β] (f : α → β)
    {l₁ l₂ : List α} (hp : List.Perm l₁ l₂) (hn : (l₁.map f).Nodup) :
    keySorted f l₁ = keySorted f l₂ := by
  have hn₂ : (l₂.map f).Nodup := ((hp.map f).nodup_iff).mp hn
  exact eq_of_perm_of_pairwise_lt f
    (((keySorted_perm f l₁).trans hp).trans (keySorted_perm f l₂).symm)
    (keySorted_pairwise_lt f hn) (keySorted_pairwise_lt f hn₂)

/-! ### Facts about `max?` on integer lists -/

theorem intAnti : Std.Antisymm (fun x1 x2 : Int => x1 ≤ x2) :=
  ⟨fun h h2 => le_antisymm h h2⟩

theorem intMax?_eq_some_iff (ys : List Int) (a : Int) :
    ys.max? = some a ↔ a ∈ ys ∧ ∀ b ∈ ys, b ≤ a := by
  have := @List.max?_eq_some_iff Int a _ _ intAnti
    (fun x => le_refl x) (fun x y => max_choice x y) (fun x y z => max_le_iff) ys
  exact this

theorem pairwise_le_getLast :
    ∀ {m : List Row} (hm : m ≠ []),
      m.Pairwise (fun a b => a.year ≤ b.year) →
      ∀ r ∈ m, r.year ≤ (m.getLast hm).year := by
  intro m
  induction m with
  | nil => intro hm; exact absurd rfl hm
  | cons a t ih =>
    intro hm hs r hr
    cases t with
    | nil =>
      have : r = a := by simpa using hr
      subst this
      exact le_refl _
    | cons b t2 =>
      rw [List.getLast_cons (by simp)]
      cases List.mem_cons.mp hr with
      | inl h =>
        subst h
        exact (List.pairwise_cons.mp hs).1 _ (List.getLast_mem _)
      | inr h =>
        exact ih (by simp) (List.pairwise_cons.mp hs).2 r h

theorem max?_years_sorted {m : List Row} (hm : m ≠ [])
    (hs : m.Pairwise (fun a b => a.year ≤ b.year)) :
    (m.map (fun r => r.year)).max? = some ((m.getLast hm).year) := by
  apply (intMax?_eq_some_iff _ _).mpr
  constructor
  · exact List.mem_map_of_mem _ (List.getLast_mem hm)
  · intro b hb
    obtain ⟨r, hr, rfl⟩ := List.mem_map.mp hb
    exact pairwise_le_getLast hm hs r hr

theorem sortByYear_eq_self {l : List Row}
    (hs : l.Pairwise (fun a b => a.year < b.year)) : sortByYear l = l :=
  keySorted_eq_self _ (hs.imp (fun h => le_of_lt h))

theorem getLast?_drop_of_ne_nil {α : Type} {l : List α} {k : Nat}
    (h : l.drop k ≠ []) : (l.drop k).getLast? = l.getLast? := by
  conv_rhs => rw [← List.take_append_drop k l]
  rw [List.getLast?_append]
  cases hx : (l.drop k).getLast? with
  | none => exact absurd (List.getLast?_eq_none_iff.mp hx) h
  | some x => rfl

/-! ### Truncated division of an exact mean -/

theorem natDiv_congr {m mc b d : Nat} (hb : 0 < b) (hd : 0 < d)
    (h : m * d = mc * b) : m / b = mc / d := by
  have h1 : m / b = m * d / (b * d) := (Nat.mul_div_mul_right m b hd).symm
  have h2 : mc / d = mc * b / (d * b) := (Nat.mul_div_mul_right mc d hb).symm
  rw [h1, h2, h, Nat.mul_comm b d]

/-- Truncation toward zero is well defined on fractions: equal fractions have
equal truncated quotients. -/
theorem tdiv_congr {a c : Int} {b d : Nat} (hb : 0 < b) (hd : 0 < d)
    (h : a * (d : Int) = c * (b : Int)) : a.tdiv (b : Int) = c.tdiv (d : Int) := by
  have hbz : (0 : Int) < (b : Int) := by exact_mod_cast hb
  have hdz : (0 : Int) < (d : Int) := by exact_mod_cast hd
  cases a with
  | ofNat m =>
    cases c with
    | ofNat mc =>
      have hn : m * d = mc * b := by
        simp only [Int.ofNat_eq_natCast] at h
        exact_mod_cast h
      show Int.ofNat (m / b) = Int.ofNat (mc / d)
      rw [natDiv_congr hb hd hn]
    | negSucc k =>
      have h1 : (0 : Int) ≤ Int.ofNat m * (d : Int) :=
        mul_nonneg (Int.ofNat_nonneg m) (le_of_lt hdz)
      have h2 : Int.negSucc k * (b : Int) < 0 :=
        mul_neg_of_neg_of_pos (Int.negSucc_lt_zero k) hbz
      rw [h] at h1
      exact absurd h1 (not_le_of_lt h2)
  | negSucc m =>
    cases c with
    | ofNat mc =>
      have h1 : (0 : Int) ≤ Int.ofNat mc * (b : Int) :=
        mul_nonneg (Int.ofNat_nonneg mc) (le_of_lt hbz)
      have h2 : Int.negSucc m * (d : Int) < 0 :=
        mul_neg_of_neg_of_pos (Int.negSucc_lt_zero m) hdz
      rw [h] at h2
      exact absurd h1 (not_le_of_lt h2)
    | negSucc k =>
      have hn : (m + 1) * d = (k + 1) * b := by
        have h3 : ((m : Int) + 1) * (d : Int) = ((k : Int) + 1) * (b : Int) := by
          have hm := Int.negSucc_eq m
          have hk := Int.negSucc_eq k
          rw [hm, hk, neg_mul, neg_mul, neg_inj] at h
          exact h
        exact_mod_cast h3
      show -Int.ofNat ((m + 1) / b) = -Int.ofNat ((k + 1) / d)
      rw [natDiv_congr hb hd hn]

theorem ratTrunc_div_nat (s : Int) (n : Nat) (hn : 0 < n) :
    ratTrunc ((s : ℚ) / (n : ℚ)) = s.tdiv (n : Int) := by
  set q : ℚ := (s : ℚ) / (n : ℚ)
  have hne : ((n : ℚ)) ≠ 0 := by
    exact_mod_cast Nat.pos_iff_ne_zero.mp hn
  have hq : (q.num : ℚ) / (q.den : ℚ) = (s : ℚ) / (n : ℚ) := by
    rw [Rat.num_div_den]
  have hden : ((q.den : ℚ)) ≠ 0 := by exact_mod_cast q.den_ne_zero
  have hcross : q.num * (n : Int) = s * ((q.den : Nat) : Int) := by
    have h2 := (div_eq_div_iff hden hne).mp hq
    exact_mod_cast h2
  exact tdiv_congr q.den_pos hn hcross

/-- `int()` of the exact rational mean coincides with the truncated integer
division used inside the executable model. -/
theorem intMean_eq_ratTrunc (l : List Int) : intMean l = ratTrunc (meanZ l) := by
  cases l with
  | nil =>
    show Int.tdiv 0 0 = ratTrunc ((0 : ℚ) / (0 : ℚ))
    norm_num [ratTrunc]
  | cons x xs =>
    exact (ratTrunc_div_nat (List.sum (x :: xs)) (x :: xs).length (by simp)).symm

/-- Row-literal helper for the concrete example tables. -/
def mkRow (reg : String) (y p b d : Int) : Row :=
  ⟨reg, y, p, b, d, regionKr2En reg⟩

/-! ### C1: the forecast formula -/

/-- C1 (amended): for a national subset sorted strictly ascending by year
(as the call site always passes) with at least 3 observations,
`predict_pop_2035` returns `population_at_maxYear + annualDelta * (2035 -
maxYear)` where `annualDelta` is the mean of births − deaths over the latest
3 observations truncated toward zero (Python `int()`), not rounded to
nearest. -/
theorem claim1_forecast_formula (l : List Row) (h3 : 3 ≤ l.length)
    (hs : l.Pairwise (fun a b => a.year < b.year)) (la : Row)
    (hla : l.getLast? = some la) :
    predict_pop_2035 l =
      some (la.pop +
        ratTrunc (meanZ ((l.drop (l.length - 3)).map
          (fun r => r.births - r.deaths))) * (2035 - la.year)) := by
  have hne : l ≠ [] := by
    intro h
    rw [h] at h3
    simp at h3
  have hrne : l.drop (l.length - 3) ≠ [] := by
    rw [ne_eq, List.drop_eq_nil_iff]
    omega
  have hsdrop : (l.drop (l.length - 3)).Pairwise (fun a b => a.year ≤ b.year) :=
    (hs.sublist (List.drop_sublist _ _)).imp (fun h => le_of_lt h)
  have hlast : (l.drop (l.length - 3)).getLast hrne = la := by
    have h1 := List.getLast?_eq_getLast (l.drop (l.length - 3)) hrne
    rw [getLast?_drop_of_ne_nil hrne, hla] at h1
    exact (Option.some.injEq _ _).mp h1.symm
  have hmax := max?_years_sorted hrne hsdrop
  rw [hlast] at hmax
  unfold predict_pop_2035
  rw [hla]
  simp only [sortByYear_eq_self hs, hmax, intMean_eq_ratTrunc]

/-- C1 example input from the spec (already sorted ascending by year). -/
def specExample : List Row :=
  [mkRow "전국" 2019 1000 30 20, mkRow "전국" 2020 1006 28 22,
   mkRow "전국" 2021 1006 25 25]

/-- C1 input refuting round-to-nearest: births − deaths are 0, 1, 1, whose
mean 2/3 rounds to 1 but truncates to 0. -/
def cexC1 : List Row :=
  [mkRow "전국" 2019 1000 10 10, mkRow "전국" 2020 1000 11 10,
   mkRow "전국" 2021 1000 11 10]

/-- C1 counterexample: on `cexC1` the claimed formula with
`annualDelta = round(mean)` predicts `1000 + round(2/3) * 14 = 1014`
(population at max year 2021 is 1000, yearsAhead is 14), but the code
truncates the mean to 0 and returns 1000, not 1014. -/
theorem claim1_counterexample :
    predict_pop_2035 cexC1 = some 1000 ∧
      1000 + round (meanZ ((cexC1.drop (cexC1.length - 3)).map
        (fun r => r.births - r.deaths))) * (2035 - 2021) = (1014 : Int) ∧
      predict_pop_2035 cexC1 ≠ some 1014 := by
  refine ⟨by decide, ?_, by decide⟩
  have h1 : (cexC1.drop (cexC1.length - 3)).map (fun r => r.births - r.deaths)
      = [0, 1, 1] := by decide
  rw [h1]
  have h2 : meanZ [0, 1, 1] = 2/3 := by
    unfold meanZ
    norm_num
  rw [h2]
  have h3 : round ((2 : ℚ)/3) = 1 := by
    rw [round_eq]
    have h4 : (2 : ℚ)/3 + 1/2 = 7/6 := by norm_num
    rw [h4]
    rw [Int.floor_eq_iff]
    norm_num
  rw [h3]
  norm_num

/-- C1 witness: the amended formula instantiated on the spec example yields
the value 1076 stated by the claim. -/
theorem claim1_witness : predict_pop_2035 specExample = some 1076 := by
  have h := claim1_forecast_formula specExample (by decide) (by decide)
    (mkRow "전국" 2021 1006 25 25) (by decide)
  rw [h, ← intMean_eq_ratTrunc]
  decide

/-! ### C10: the rounding mode of the forecaster -/

/-- Forecast input with diffs 2, 2, 1: mean 5/3 truncates to 1. -/
def exT1 : List Row :=
  [mkRow "전국" 2019 500 12 10, mkRow "전국" 2020 500 12 10,
   mkRow "전국" 2021 500 11 10]

/-- Forecast input with diffs -2, -2, -1: mean -5/3 truncates to -1
(toward zero; floor and round-to-nearest would give -2). -/
def exT2 : List Row :=
  [mkRow "전국" 2019 500 10 12, mkRow "전국" 2020 500 10 12,
   mkRow "전국" 2021 500 10 11]

/-- Two-observation input (tail(3) keeps both) with diffs 5, 6:
mean 5.5 truncates to 5. -/
def exT3 : List Row :=
  [mkRow "전국" 2020 500 105 100, mkRow "전국" 2021 500 106 100]

/-- Two-observation input with diffs -5, -6: mean -5.5 truncates to -5. -/
def exT4 : List Row :=
  [mkRow "전국" 2020 500 100 105, mkRow "전국" 2021 500 100 106]

/-- C10: the annual delta is the mean of births − deaths converted with
Python `int()`, truncating toward zero, not rounding to nearest:
a mean of 5/3 gives annual delta 1 (forecast 514, not the 528 of rounding),
a mean of -5/3 gives -1 (forecast 486, not 472), a mean of 5.5 gives 5
(570, not 584) and a mean of -5.5 gives -5 (430, not 416, which floor or
rounding-to-even would produce); `ratTrunc (meanZ _)`, the truncation of
the exact rational mean, is exactly `int()` of the mean, as witnessed on
5.5 and -5.5. -/
theorem claim10_truncation_toward_zero :
    (predict_pop_2035 exT1 = some 514 ∧ predict_pop_2035 exT1 ≠ some 528) ∧
    (predict_pop_2035 exT2 = some 486 ∧ predict_pop_2035 exT2 ≠ some 472) ∧
    (predict_pop_2035 exT3 = some 570 ∧ predict_pop_2035 exT3 ≠ some 584) ∧
    (predict_pop_2035 exT4 = some 430 ∧ predict_pop_2035 exT4 ≠ some 416) ∧
    ratTrunc (meanZ [5, 6]) = 5 ∧ ratTrunc (meanZ [-5, -6]) = -5 := by
  refine ⟨by decide, by decide, by decide, by decide, ?_, ?_⟩
  · rw [← intMean_eq_ratTrunc]
    decide
  · rw [← intMean_eq_ratTrunc]
    decide

/-! ### C6: behaviour below 3 national observations -/

/-- C6 (amended): `predict_pop_2035` has no insufficient-history guard: it
returns a forecast for every nonempty national subset, including subsets
with only 1 or 2 observations; only the empty subset fails (with an
ordinary runtime error, not an InsufficientHistoryError, which the source
never defines). -/
theorem claim6_no_history_guard :
    predict_pop_2035 [] = none ∧
      ∀ l : List Row, l ≠ [] → (predict_pop_2035 l).isSome = true := by
  refine ⟨rfl, ?_⟩
  intro l hl
  unfold predict_pop_2035
  cases h : l.getLast? with
  | none => exact absurd (List.getLast?_eq_none_iff.mp h) hl
  | some la =>
    have hlen : (sortByYear l).length = l.length :=
      (keySorted_perm _ l).length_eq
    cases hm : (((sortByYear l).drop (l.length - 3)).map (fun r => r.year)).max? with
    | none =>
      have h2 := List.max?_eq_none_iff.mp hm
      rw [List.map_eq_nil_iff, List.drop_eq_nil_iff, hlen] at h2
      have hpos : 0 < l.length := List.length_pos.mpr hl
      omega
    | some m => rfl

/-- Two national observations, fewer than the 3 the claim requires for a
forecast. -/
def cexC6 : List Row :=
  [mkRow "전국" 2020 800 50 40, mkRow "전국" 2021 800 52 40]

/-- C6 counterexample: with only 2 national observations the code does not
fail at all — it returns the forecast 800 + 11 * 14 = 954 computed from the
2 available rows. -/
theorem claim6_counterexample :
    predict_pop_2035 cexC6 = some 954 ∧ cexC6.length < 3 := by
  constructor
  · decide
  · decide

/-- One-observation input for the C6 witness. -/
def witC6 : List Row :=
  [mkRow "전국" 2021 700 10 20]

/-- C6 witness: the amended theorem applied to a single-observation subset. -/
theorem claim6_witness : (predict_pop_2035 witC6).isSome = true :=
  claim6_no_history_guard.2 witC6 (by decide)

/-! ### C4: the numeric-coercion invariant -/

/-- Whether a raw cell parses numerically. -/
def RawField.isNum : RawField → Bool
  | RawField.num _ => true
  | _ => false

/-- Whether a raw cell, if it parses numerically, parses to a value ≥ 0. -/
def numNonneg : RawField → Bool
  | RawField.num n => decide (0 ≤ n)
  | _ => true

theorem coerceNum_nonneg (f : RawField) (h : numNonneg f = true) :
    0 ≤ coerceNum f := by
  cases f with
  | num n =>
    simp only [numNonneg, decide_eq_true_eq] at h
    exact h
  | dash => exact le_refl 0
  | junk => exact le_refl 0

theorem numNonneg_replaceDash (f : RawField) (h : numNonneg f = true) :
    numNonneg (replaceDash f) = true := by
  cases f <;> simp_all [replaceDash, numNonneg]

theorem coerce_zero_of_not_num (f : RawField) (h : f.isNum = false) :
    coerceNum f = 0 := by
  cases f <;> simp_all [RawField.isNum, coerceNum]

theorem coerce_replaceDash_zero_of_not_num (f : RawField) (h : f.isNum = false) :
    coerceNum (replaceDash f) = 0 := by
  cases f <;> simp_all [RawField.isNum, coerceNum, replaceDash]

theorem sejong_fields_pos (r : RawRow) (h : r.region = "세종") :
    (sejongReplace r).pop = replaceDash r.pop ∧
    (sejongReplace r).births = replaceDash r.births ∧
    (sejongReplace r).deaths = replaceDash r.deaths := by
  unfold sejongReplace
  rw [if_pos h]
  exact ⟨rfl, rfl, rfl⟩

theorem sejongReplace_fields (r : RawRow) :
    ((sejongReplace r).pop = r.pop ∨ (sejongReplace r).pop = replaceDash r.pop) ∧
    ((sejongReplace r).births = r.births ∨
      (sejongReplace r).births = replaceDash r.births) ∧
    ((sejongReplace r).deaths = r.deaths ∨
      (sejongReplace r).deaths = replaceDash r.deaths) := by
  unfold sejongReplace
  by_cases h : r.region = "세종" <;> simp [h]

/-- C4 (amended): after cleaning, the three numeric fields are integers,
any raw cell that fails numeric coercion (or is missing) has become 0
(never an error, never a missing marker — the function is total and the
field type is Int), and the fields are ≥ 0 provided every raw cell that
does parse numerically is ≥ 0. The code does not itself enforce
nonnegativity: a parseable negative raw value survives (see the
counterexample). -/
theorem claim4_cleaning_invariant (t : List RawRow) :
    ((∀ r ∈ t, numNonneg r.pop = true ∧ numNonneg r.births = true ∧
        numNonneg r.deaths = true) →
      ∀ c ∈ load_population_df t, 0 ≤ c.pop ∧ 0 ≤ c.births ∧ 0 ≤ c.deaths) ∧
    (∀ (i : Nat) (r : RawRow), t[i]? = some r →
      (load_population_df t)[i]? = some (cleanRow (sejongReplace r)) ∧
        (r.pop.isNum = false → (cleanRow (sejongReplace r)).pop = 0) ∧
        (r.births.isNum = false → (cleanRow (sejongReplace r)).births = 0) ∧
        (r.deaths.isNum = false → (cleanRow (sejongReplace r)).deaths = 0)) := by
  constructor
  · intro hok c hc
    unfold load_population_df at hc
    obtain ⟨r2, hr2, rfl⟩ := List.mem_map.mp hc
    obtain ⟨r, hr, rfl⟩ := List.mem_map.mp hr2
    obtain ⟨h1, h2, h3⟩ := hok r hr
    obtain ⟨e1, e2, e3⟩ := sejongReplace_fields r
    refine ⟨?_, ?_, ?_⟩
    · show 0 ≤ coerceNum ((sejongReplace r).pop)
      cases e1 with
      | inl h => rw [h]; exact coerceNum_nonneg _ h1
      | inr h => rw [h]; exact coerceNum_nonneg _ (numNonneg_replaceDash _ h1)
    · show 0 ≤ coerceNum ((sejongReplace r).births)
      cases e2 with
      | inl h => rw [h]; exact coerceNum_nonneg _ h2
      | inr h => rw [h]; exact coerceNum_nonneg _ (numNonneg_replaceDash _ h2)
    · show 0 ≤ coerceNum ((sejongReplace r).deaths)
      cases e3 with
      | inl h => rw [h]; exact coerceNum_nonneg _ h3
      | inr h => rw [h]; exact coerceNum_nonneg _ (numNonneg_replaceDash _ h3)
  · intro i r hi
    have hget : (load_population_df t)[i]? = some (cleanRow (sejongReplace r)) := by
      unfold load_population_df
      rw [List.getElem?_map, List.getElem?_map, hi]
      rfl
    obtain ⟨e1, e2, e3⟩ := sejongReplace_fields r
    refine ⟨hget, ?_, ?_, ?_⟩
    · intro hfail
      show coerceNum ((sejongReplace r).pop) = 0
      cases e1 with
      | inl h2 => rw [h2]; exact coerce_zero_of_not_num _ hfail
      | inr h2 => rw [h2]; exact coerce_replaceDash_zero_of_not_num _ hfail
    · intro hfail
      show coerceNum ((sejongReplace r).births) = 0
      cases e2 with
      | inl h2 => rw [h2]; exact coerce_zero_of_not_num _ hfail
      | inr h2 => rw [h2]; exact coerce_replaceDash_zero_of_not_num _ hfail
    · intro hfail
      show coerceNum ((sejongReplace r).deaths) = 0
      cases e3 with
      | inl h2 => rw [h2]; exact coerce_zero_of_not_num _ hfail
      | inr h2 => rw [h2]; exact coerce_replaceDash_zero_of_not_num _ hfail

/-- Raw table whose births cell parses to the negative number -3. -/
def cexC4 : List RawRow :=
  [⟨"서울", 2020, RawField.num 100, RawField.num (-3), RawField.num 2⟩]

/-- C4 counterexample: cleaning does not force the fields to be ≥ 0 — a raw
births value of -3 passes numeric coercion and stays -3 in the cleaned
record. -/
theorem claim4_counterexample :
    ¬ (∀ c ∈ load_population_df cexC4, 0 ≤ c.births) := by
  decide

/-- C4/C5 witness rows: a 서울 row with a junk (unparseable) deaths cell and
a 세종 row with the dash placeholder in births. -/
def witRow0 : RawRow := ⟨"서울", 2020, RawField.num 100, RawField.num 3, RawField.junk⟩

def witRow1 : RawRow := ⟨"세종", 2020, RawField.num 50, RawField.dash, RawField.num 1⟩

def witT : List RawRow := [witRow0, witRow1]

/-- C4 witness: the amended theorem applied to `witT`: all cleaned fields
are ≥ 0, and the unparseable deaths cell of row 0 became 0. -/
theorem claim4_witness :
    (∀ c ∈ load_population_df witT, 0 ≤ c.pop ∧ 0 ≤ c.births ∧ 0 ≤ c.deaths) ∧
      (cleanRow (sejongReplace witRow0)).deaths = 0 := by
  constructor
  · exact (claim4_cleaning_invariant witT).1 (by decide)
  · exact ((claim4_cleaning_invariant witT).2 0 witRow0 (by decide)).2.2.2 (by decide)

/-! ### C5: the 세종 placeholder substitution -/

/-- C5: the `"-"` placeholder substitution happens only on 세종 rows
(a row of any other region is returned unchanged by the substitution step,
even if it holds the same placeholder), and a 세종 placeholder cell in any
of the three numeric columns equals 0 in the cleaned output. -/
theorem claim5_sejong_placeholder (t : List RawRow) :
    (∀ r : RawRow, ¬ r.region = "세종" → sejongReplace r = r) ∧
    (∀ (i : Nat) (r : RawRow), t[i]? = some r → r.region = "세종" →
      (load_population_df t)[i]? = some (cleanRow (sejongReplace r)) ∧
        (r.pop = RawField.dash → (cleanRow (sejongReplace r)).pop = 0) ∧
        (r.births = RawField.dash → (cleanRow (sejongReplace r)).births = 0) ∧
        (r.deaths = RawField.dash → (cleanRow (sejongReplace r)).deaths = 0)) := by
  constructor
  · intro r hr
    unfold sejongReplace
    rw [if_neg hr]
  · intro i r hi hreg
    have hget : (load_population_df t)[i]? = some (cleanRow (sejongReplace r)) := by
      unfold load_population_df
      rw [List.getElem?_map, List.getElem?_map, hi]
      rfl
    obtain ⟨e1, e2, e3⟩ := sejong_fields_pos r hreg
    refine ⟨hget, ?_, ?_, ?_⟩
    · intro hdash
      show coerceNum ((sejongReplace r).pop) = 0
      rw [e1, hdash]
      rfl
    · intro hdash
      show coerceNum ((sejongReplace r).births) = 0
      rw [e2, hdash]
      rfl
    · intro hdash
      show coerceNum ((sejongReplace r).deaths) = 0
      rw [e3, hdash]
      rfl

/-- C5 witness: on `witT`, the 세종 dash births cell cleans to 0, and the
substitution step leaves the non-세종 row untouched. -/
theorem claim5_witness :
    (cleanRow (sejongReplace witRow1)).births = 0 ∧
      sejongReplace witRow0 = witRow0 := by
  constructor
  · exact ((claim5_sejong_placeholder witT).2 1 witRow1 (by decide) (by decide)).2.2.1
      (by decide)
  · exact (claim5_sejong_placeholder witT).1 witRow0 (by decide)

/-! ### C2: the Top Δ records extraction -/

theorem withDiffs_fst (prev : Option Row) (m : List Row) :
    (withDiffs prev m).map Prod.fst = m := by
  induction m generalizing prev with
  | nil => rfl
  | cons x xs ih => simp [withDiffs, ih]

/-- Every defined diff produced by `withDiffs` is the population difference
with another row of the same region (the previous row of the group). -/
theorem withDiffs_some_mem :
    ∀ (m : List Row) (prev : Option Row) (r : Row) (d : Int),
      (∀ pv, prev = some pv → pv ∉ m) → m.Nodup →
      (r, some d) ∈ withDiffs prev m →
      (∃ pv, prev = some pv ∧ pv.region = r.region ∧ d = r.pop - pv.pop ∧
        pv ≠ r) ∨
      (∃ r2 ∈ m, r2 ≠ r ∧ r2.region = r.region ∧ d = r.pop - r2.pop) := by
  intro m
  induction m with
  | nil =>
    intro prev r d _ _ h
    simp [withDiffs] at h
  | cons x xs ih =>
    intro prev r d hprev hnd hmem
    rw [withDiffs] at hmem
    cases List.mem_cons.mp hmem with
    | inl hhead =>
      obtain ⟨hx, hdiff⟩ := Prod.mk.injEq _ _ _ _ ▸ hhead
      subst hx
      cases hp : prev with
      | none =>
        rw [hp] at hdiff
        simp only [Option.none_bind] at hdiff
        cases hdiff
      | some pv =>
        rw [hp] at hdiff
        simp only [Option.some_bind] at hdiff
        by_cases hreg : pv.region = r.region
        · rw [if_pos hreg] at hdiff
          left
          refine ⟨pv, rfl, hreg, ?_, ?_⟩
          · injection hdiff.symm with h2
            omega
          · intro he
            exact hprev pv hp (he ▸ List.mem_cons_self _ _)
        · rw [if_neg hreg] at hdiff
          exact absurd hdiff.symm (by simp)
    | inr htail =>
      have hr_xs : r ∈ xs := by
        have hfst := withDiffs_fst (some x) xs
        have := List.mem_map_of_mem Prod.fst htail
        rw [hfst] at this
        exact this
      have hprev2 : ∀ pv, some x = some pv → pv ∉ xs := by
        intro pv hpv
        injection hpv with h2
        subst h2
        exact (List.nodup_cons.mp hnd).1
      cases ih (some x) r d hprev2 (List.nodup_cons.mp hnd).2 htail with
      | inl h =>
        obtain ⟨pv, hpv, hreg, hd, hne⟩ := h
        injection hpv with h2
        subst h2
        right
        exact ⟨x, List.mem_cons_self x xs, hne, hreg, hd⟩
      | inr h =>
        obtain ⟨r2, hr2, hne, hreg, hd⟩ := h
        right
        exact ⟨r2, List.mem_cons_of_mem x hr2, hne, hreg, hd⟩

/-- The spec's Top Δ example table: region A with populations 100, 90, 150
and region B with populations 50, 80. -/
def rA19 : Row := mkRow "A" 2019 100 0 0
def rA20 : Row := mkRow "A" 2020 90 0 0
def rA21 : Row := mkRow "A" 2021 150 0 0
def rB19 : Row := mkRow "B" 2019 50 0 0
def rB20 : Row := mkRow "B" 2020 80 0 0

def exC2 : List Row := [rA19, rA20, rA21, rB19, rB20]

/-- C2 (amended): the extraction selects by largest signed diff (ties by
input order), first observed years contribute no candidate, and k = 2 on the
example yields [(A,+60),(B,+30)]; but a large negative diff IS surfaced as
soon as k exceeds the number of larger candidates: with k ≥ 3 the example's
(A,−10) entry appears in the output. In general every selected entry has a
diff at least as large as every unselected candidate, and every selected
entry diffs against another record of the same region. -/
theorem claim2_topk_selection :
    topYearOverYearChanges exC2 2 = [(rA21, 60), (rB20, 30)] ∧
    (∀ k, 3 ≤ k → (rA20, (-10 : Int)) ∈ topYearOverYearChanges exC2 k) ∧
    (∀ (l : List Row) (k : Nat) (x y : Row × Int),
      x ∈ topYearOverYearChanges l k → y ∈ yoyCandidates l →
      y ∉ topYearOverYearChanges l k → y.2 ≤ x.2) ∧
    (∀ (l : List Row) (k : Nat) (p : Row × Int), uniquePairs l →
      p ∈ topYearOverYearChanges l k →
      ∃ r2 ∈ l, r2 ≠ p.1 ∧ r2.region = p.1.region ∧ p.2 = p.1.pop - r2.pop) := by
  have hsorted : keySorted (fun p : Row × Int => -p.2) (yoyCandidates exC2) =
      [(rA21, 60), (rB20, 30), (rA20, -10)] := by decide
  refine ⟨?_, ?_, ?_, ?_⟩
  · decide
  · intro k hk
    unfold topYearOverYearChanges
    rw [hsorted, List.take_of_length_le (by simpa using hk)]
    decide
  · intro l k x y hx hy hyn
    unfold topYearOverYearChanges at hx hyn
    have hys : y ∈ keySorted (fun p : Row × Int => -p.2) (yoyCandidates l) :=
      (keySorted_perm _ _).mem_iff.mpr hy
    have hyd : y ∈ (keySorted (fun p : Row × Int => -p.2) (yoyCandidates l)).drop k := by
      have h2 : y ∈ (keySorted (fun p : Row × Int => -p.2) (yoyCandidates l)).take k ++
          (keySorted (fun p : Row × Int => -p.2) (yoyCandidates l)).drop k := by
        rw [List.take_append_drop]
        exact hys
      cases List.mem_append.mp h2 with
      | inl h3 => exact absurd h3 hyn
      | inr h3 => exact h3
    have hrel := (keySorted_sorted (fun p : Row × Int => -p.2)
      (yoyCandidates l)).rel_of_mem_take_of_mem_drop hx hyd
    simp only [keyRel] at hrel
    exact neg_le_neg_iff.mp hrel
  · intro l k p hu hp
    unfold topYearOverYearChanges at hp
    have hs : p ∈ keySorted (fun q : Row × Int => -q.2) (yoyCandidates l) :=
      List.mem_of_mem_take hp
    have hc : p ∈ yoyCandidates l := (keySorted_perm _ _).mem_iff.mp hs
    unfold yoyCandidates at hc
    obtain ⟨q, hq, hq2⟩ := List.mem_filterMap.mp hc
    have hq3 : q = (p.1, some p.2) := by
      cases hq4 : q.2 with
      | none =>
        rw [hq4] at hq2
        simp only [Option.map_none'] at hq2
        cases hq2
      | some d =>
        rw [hq4] at hq2
        simp only [Option.map_some'] at hq2
        injection hq2 with h5
        obtain ⟨h6, h7⟩ := Prod.mk.injEq _ _ _ _ ▸ h5
        exact Prod.ext (by rw [← h6]) (by rw [hq4, h7])
    rw [hq3] at hq
    have hmem : (p.1, some p.2) ∈ withDiffs none (sortRegionYear l) :=
      (List.mem_filter.mp hq).1
    have hnd : (sortRegionYear l).Nodup := by
      have hl : l.Nodup := List.Nodup.of_map _ hu
      exact ((keySorted_perm _ l).nodup_iff).mpr hl
    cases withDiffs_some_mem (sortRegionYear l) none p.1 p.2
        (by intro pv h; cases h) hnd hmem with
    | inl h => obtain ⟨pv, hpv, _⟩ := h; cases hpv
    | inr h =>
      obtain ⟨r2, hr2, hne, hreg, hd⟩ := h
      exact ⟨r2, (keySorted_perm _ l).mem_iff.mp hr2, hne, hreg, hd⟩

/-- C2 counterexample: the claim says the −10 entry never appears for any k,
but already at k = 3 (and at the source's default k = 100) the code returns
it — `nlargest` falls back to smaller (including negative) diffs when fewer
than k larger candidates exist. -/
theorem claim2_counterexample :
    (rA20, (-10 : Int)) ∈ topYearOverYearChanges exC2 3 := by
  decide

/-- C2 witness: the amended theorem applied at the example: the −10 entry is
in the k = 3 output, the unselected candidate at k = 2 has a smaller diff
than a selected one, and the selected (A, +60) entry diffs against another
record of region A. -/
theorem claim2_witness :
    ((rA20, (-10 : Int)) ∈ topYearOverYearChanges exC2 3) ∧
      ((rA20, (-10 : Int)).2 ≤ (rA21, (60 : Int)).2) ∧
      (∃ r2 ∈ exC2, r2 ≠ (rA21, (60 : Int)).1 ∧
        r2.region = (rA21, (60 : Int)).1.region ∧
        (rA21, (60 : Int)).2 = (rA21, (60 : Int)).1.pop - r2.pop) := by
  refine ⟨claim2_topk_selection.2.1 3 (le_refl 3), ?_, ?_⟩
  · exact claim2_topk_selection.2.2.1 exC2 2 (rA21, 60) (rA20, -10)
      (by decide) (by decide) (by decide)
  · exact claim2_topk_selection.2.2.2 exC2 2 (rA21, 60) (by decide) (by decide)

/-! ### C9: sparsity of the region-by-year pivot -/

/-- C9: the region × year matrix never has an entry for the national
aggregate (the row labelled "National" is excluded), and a (region, year)
pair with no record in the input is absent from the matrix (`none`), not
present with value 0. -/
theorem claim9_matrix_sparsity (l : List Row) :
    (∀ y : Int, regionByYearMatrix l "National" y = none) ∧
    (∀ (regEn : String) (y : Int),
      (∀ r ∈ l, ¬ (r.regionEn = some regEn ∧ r.year = y)) →
      regionByYearMatrix l regEn y = none) := by
  constructor
  · intro y
    unfold regionByYearMatrix
    rw [if_pos rfl]
  · intro regEn y h
    unfold regionByYearMatrix
    by_cases hn : regEn = "National"
    · rw [if_pos hn]
    · rw [if_neg hn]
      have hfil : List.filter
          (fun r => decide (r.regionEn = some regEn ∧ r.year = y)) l = [] := by
        rw [List.filter_eq_nil_iff]
        intro a ha
        simp only [decide_eq_true_eq]
        exact h a ha
      rw [hfil]
      rfl

/-- Single-row table for the C9 witness. -/
def wit9 : List Row :=
  [mkRow "서울" 2020 100 5 3]

/-- C9 witness: on a concrete table, the National row is absent and the
(Seoul, 1999) cell — absent from the input — is `none`, not 0. -/
theorem claim9_witness :
    regionByYearMatrix wit9 "National" 2020 = none ∧
      regionByYearMatrix wit9 "Seoul" 1999 = none :=
  ⟨(claim9_matrix_sparsity wit9).1 2020,
   (claim9_matrix_sparsity wit9).2 "Seoul" 1999 (by decide)⟩

/-! ### Helper lemmas for the regional delta view -/

theorem lookupFst_eq_some_of_mem :
    ∀ (m : List (String × Int)) (k : String) (v : Int),
      (m.map Prod.fst).Nodup → (k, v) ∈ m → lookupFst k m = some v := by
  intro m
  induction m with
  | nil =>
    intro k v _ h
    simp at h
  | cons p rest ih =>
    intro k v hnd hmem
    obtain ⟨k2, v2⟩ := p
    cases List.mem_cons.mp hmem with
    | inl h =>
      obtain ⟨h1, h2⟩ := Prod.mk.injEq _ _ _ _ ▸ h
      subst h1
      subst h2
      unfold lookupFst
      rw [if_pos rfl]
    | inr h =>
      have hk : ¬ k2 = k := by
        intro he
        subst he
        have : k2 ∈ rest.map Prod.fst := List.mem_map_of_mem Prod.fst h
        exact (List.nodup_cons.mp (by simpa using hnd)).1 this
      unfold lookupFst
      rw [if_neg hk]
      exact ih k v (List.nodup_cons.mp (by simpa using hnd)).2 h

theorem lookupFst_eq_none :
    ∀ (m : List (String × Int)) (k : String),
      ¬ k ∈ m.map Prod.fst → lookupFst k m = none := by
  intro m
  induction m with
  | nil => intro k _; rfl
  | cons p rest ih =>
    intro k hk
    obtain ⟨k2, v2⟩ := p
    unfold lookupFst
    rw [if_neg ?_]
    · exact ih k (fun h => hk (by simp [h]))
    · intro he
      exact hk (by simp [he])

/-- A list of pairs with pairwise-distinct elements and a constant second
component has pairwise-distinct first components. -/
theorem nodup_fst_of_const_snd {c : Int} :
    ∀ (P : List (String × Int)), P.Nodup → (∀ p ∈ P, p.2 = c) →
      (P.map Prod.fst).Nodup := by
  intro P hnd hc
  apply List.Nodup.map_on ?_ hnd
  intro x hx y hy hxy
  have h1 := hc x hx
  have h2 := hc y hy
  exact Prod.ext hxy (h1.trans h2.symm)

/-- A list of pairs with pairwise-distinct elements and a constant first
component has pairwise-distinct second components. -/
theorem nodup_snd_of_const_fst {c : String} :
    ∀ (P : List (String × Int)), P.Nodup → (∀ p ∈ P, p.1 = c) →
      (P.map Prod.snd).Nodup := by
  intro P hnd hc
  apply List.Nodup.map_on ?_ hnd
  intro x hx y hy hxy
  have h1 := hc x hx
  have h2 := hc y hy
  exact Prod.ext (h1.trans h2.symm) hxy

/-- The (region, year) pairs of any sublist of the record set. -/
theorem nodup_pairs_filter (l : List Row) (p : Row → Bool) (hu : uniquePairs l) :
    ((l.filter p).map (fun r => (r.region, r.year))).Nodup := by
  have hu2 : (l.map (fun r => (r.region, r.year))).Nodup := hu
  exact ((List.filter_sublist l).map (fun r => (r.region, r.year))).nodup hu2

/-- Under the one-record-per-(region, year) invariant, the index of
`set_index("지역")` at a fixed year has no duplicate labels. -/
theorem nodup_rowsAt_fst (l : List Row) (y : Int) (hu : uniquePairs l) :
    ((rowsAt l y).map Prod.fst).Nodup := by
  unfold rowsAt
  rw [List.map_map]
  have hP : ((l.filter (fun r => decide (r.year = y))).map
      (fun r => (r.region, r.year))).Nodup := nodup_pairs_filter l _ hu
  have hconst : ∀ p ∈ (l.filter (fun r => decide (r.year = y))).map
      (fun r => (r.region, r.year)), p.2 = y := by
    intro p hp
    obtain ⟨r, hr, rfl⟩ := List.mem_map.mp hp
    have := List.of_mem_filter hr
    simpa using this
  have := nodup_fst_of_const_snd _ hP hconst
  rw [List.map_map] at this
  exact this

/-- Membership in the aligned index is membership in either year's index. -/
theorem mem_alignIndex (a b : List String) (k : String) :
    k ∈ alignIndex a b ↔ k ∈ a ∨ k ∈ b := by
  unfold alignIndex
  by_cases he : a = b
  · rw [if_pos he]
    subst he
    exact ⟨fun h => Or.inl h, fun h => h.elim id id⟩
  · rw [if_neg he]
    rw [(keySorted_perm _ _).mem_iff, List.mem_append]
    constructor
    · intro h
      cases h with
      | inl h2 => exact Or.inl h2
      | inr h2 => exact Or.inr (List.mem_of_mem_filter h2)
    · intro h
      by_cases ha : k ∈ a
      · exact Or.inl ha
      · cases h with
        | inl h2 => exact absurd h2 ha
        | inr h2 =>
          right
          rw [List.mem_filter]
          exact ⟨h2, by simpa using ha⟩

theorem nodup_alignIndex (a b : List String) (hna : a.Nodup) (hnb : b.Nodup) :
    (alignIndex a b).Nodup := by
  unfold alignIndex
  by_cases he : a = b
  · rw [if_pos he]
    exact hna
  · rw [if_neg he]
    apply ((keySorted_perm _ _).nodup_iff).mpr
    apply List.Nodup.append hna (hnb.filter _)
    intro x hxa hxb
    have := List.of_mem_filter hxb
    simp only [decide_not, Bool.not_eq_true', decide_eq_false_iff_not] at this
    exact this hxa

/-- Cracking open a successful run of the Regional Δ view. -/
theorem regionalDelta_some_eq {l : List Row} {out : List (String × Option Int)}
    (hout : regionalDelta l = some out) :
    ∃ latestY, (l.map (fun r => r.year)).max? = some latestY ∧
      "전국" ∈ idxOf l latestY ∧
      out = keySorted dkeyOpt (deltaList l latestY) := by
  unfold regionalDelta at hout
  cases hy : (l.map (fun r => r.year)).max? with
  | none =>
    rw [hy] at hout
    cases hout
  | some latestY =>
    rw [hy] at hout
    dsimp only at hout
    by_cases hmem : "전국" ∈ idxOf l latestY
    · rw [if_pos hmem] at hout
      injection hout with h2
      exact ⟨latestY, rfl, hmem, h2.symm⟩
    · rw [if_neg hmem] at hout
      cases hout

theorem deltaEntry_fst (latest base : List (String × Int)) (k : String) :
    (deltaEntry latest base k).1 = k :=
  rfl

theorem deltaEntry_some (latest base : List (String × Int)) (k : String)
    (pl pb : Int) (hl : lookupFst k latest = some pl)
    (hb : lookupFst k base = some pb) :
    deltaEntry latest base k = (k, some (pl - pb)) := by
  unfold deltaEntry
  rw [hl, hb]

theorem deltaEntry_none_right (latest base : List (String × Int)) (k : String)
    (hb : lookupFst k base = none) :
    deltaEntry latest base k = (k, none) := by
  unfold deltaEntry
  rw [hb]
  cases hx : lookupFst k latest <;> rfl

theorem deltaEntry_none_left (latest base : List (String × Int)) (k : String)
    (hl : lookupFst k latest = none) :
    deltaEntry latest base k = (k, none) := by
  unfold deltaEntry
  rw [hl]

theorem mem_deltaList_of_mem_idx {l : List Row} {latestY : Int} {k : String}
    (hk : k ∈ idxOf l latestY) (hne : ¬ k = "전국") :
    deltaEntry (rowsAt l latestY) (rowsAt l (latestY - 4)) k ∈
      deltaList l latestY := by
  unfold deltaList
  apply List.mem_map_of_mem
  rw [List.mem_filter]
  exact ⟨hk, by simpa using hne⟩

/-! ### C3: the regional delta view -/

/-- C3 (amended): `regionalDelta` aligns the two years' rows by an OUTER
join on region code, not an inner join: a non-national region present in
only one of the two years is not dropped — it appears in the output with an
undefined (NaN) delta, placed after every defined delta. The national
aggregate is excluded; every region present in both years appears with
delta population(endYear) − population(endYear−4); and the output is sorted
descending on the defined deltas, with the undefined entries last. -/
theorem claim3_regional_delta (l : List Row) (out : List (String × Option Int))
    (latestY : Int) (hu : uniquePairs l)
    (hout : regionalDelta l = some out)
    (hy : (l.map (fun r => r.year)).max? = some latestY) :
    (∀ p ∈ out, ¬ p.1 = "전국") ∧
    (∀ (k : String) (pl pb : Int), ¬ k = "전국" →
      (k, pl) ∈ rowsAt l latestY → (k, pb) ∈ rowsAt l (latestY - 4) →
      (k, some (pl - pb)) ∈ out) ∧
    (∀ k : String, ¬ k = "전국" →
      k ∈ (rowsAt l latestY).map Prod.fst →
      ¬ k ∈ (rowsAt l (latestY - 4)).map Prod.fst →
      (k, (none : Option Int)) ∈ out) ∧
    (∀ k : String, ¬ k = "전국" →
      ¬ k ∈ (rowsAt l latestY).map Prod.fst →
      k ∈ (rowsAt l (latestY - 4)).map Prod.fst →
      (k, (none : Option Int)) ∈ out) ∧
    out.Pairwise (fun a b => ∀ x : Int, b.2 = some x →
      ∃ y : Int, a.2 = some y ∧ x ≤ y) := by
  obtain ⟨Y, hy2, hmem, heq⟩ := regionalDelta_some_eq hout
  have hYY : Y = latestY := by
    rw [hy2] at hy
    injection hy
  subst hYY
  refine ⟨?_, ?_, ?_, ?_, ?_⟩
  · intro p hp
    rw [heq, (keySorted_perm _ _).mem_iff] at hp
    unfold deltaList at hp
    obtain ⟨k, hk, rfl⟩ := List.mem_map.mp hp
    have := List.of_mem_filter hk
    simp only [decide_not, Bool.not_eq_true', decide_eq_false_iff_not] at this
    rw [deltaEntry_fst]
    exact this
  · intro k pl pb hk hl hb
    have hkL : k ∈ (rowsAt l Y).map Prod.fst := List.mem_map_of_mem Prod.fst hl
    have hki : k ∈ idxOf l Y := by
      unfold idxOf
      exact (mem_alignIndex _ _ _).mpr (Or.inl hkL)
    have hin := mem_deltaList_of_mem_idx hki hk
    rw [deltaEntry_some _ _ _ pl pb
      (lookupFst_eq_some_of_mem _ _ _ (nodup_rowsAt_fst l Y hu) hl)
      (lookupFst_eq_some_of_mem _ _ _ (nodup_rowsAt_fst l (Y - 4) hu) hb)] at hin
    rw [heq, (keySorted_perm _ _).mem_iff]
    exact hin
  · intro k hk hkL hkB
    have hki : k ∈ idxOf l Y := by
      unfold idxOf
      exact (mem_alignIndex _ _ _).mpr (Or.inl hkL)
    have hin := mem_deltaList_of_mem_idx hki hk
    rw [deltaEntry_none_right _ _ _ (lookupFst_eq_none _ _ hkB)] at hin
    rw [heq, (keySorted_perm _ _).mem_iff]
    exact hin
  · intro k hk hkL hkB
    have hki : k ∈ idxOf l Y := by
      unfold idxOf
      exact (mem_alignIndex _ _ _).mpr (Or.inr hkB)
    have hin := mem_deltaList_of_mem_idx hki hk
    rw [deltaEntry_none_left _ _ _ (lookupFst_eq_none _ _ hkL)] at hin
    rw [heq, (keySorted_perm _ _).mem_iff]
    exact hin
  · rw [heq]
    have hs := keySorted_sorted dkeyOpt (deltaList l Y)
    refine hs.imp ?_
    intro a b hab x hbx
    have hkb : dkeyOpt b = toLex (false, -x) := by
      unfold dkeyOpt
      rw [hbx]
    cases ha2 : a.2 with
    | none =>
      have hka : dkeyOpt a = toLex (true, 0) := by
        unfold dkeyOpt
        rw [ha2]
      rw [keyRel, hka, hkb] at hab
      rcases (Prod.Lex.le_iff _ _).mp hab with h | h
      · exact absurd (show (true : Bool) < false from h) (by decide)
      · exact absurd (show (true : Bool) = false from h.1) (by decide)
    | some y =>
      have hka : dkeyOpt a = toLex (false, -y) := by
        unfold dkeyOpt
        rw [ha2]
      rw [keyRel, hka, hkb] at hab
      rcases (Prod.Lex.le_iff _ _).mp hab with h | h
      · exact absurd (show (false : Bool) < false from h) (by decide)
      · exact ⟨y, rfl, neg_le_neg_iff.mp h.2⟩

/-- Record set where 부산 is present only at the end year 2021, not at the
base year 2017. -/
def cexC3 : List Row :=
  [mkRow "전국" 2017 100 0 0, mkRow "전국" 2021 120 0 0,
   mkRow "서울" 2017 50 0 0, mkRow "서울" 2021 45 0 0,
   mkRow "부산" 2021 30 0 0]

/-- C3 counterexample: the claim says a region present in only one of the
two years is silently dropped and does not appear at all, but 부산 —
present only at 2021 — appears in the output, carrying the NaN delta at the
end of the ranking (pandas Series subtraction is an outer alignment, not an
inner join). -/
theorem claim3_counterexample :
    regionalDelta cexC3 = some [("서울", some (-5)), ("부산", none)] ∧
      "부산" ∈ ([("서울", some (-5)), ("부산", none)] :
        List (String × Option Int)).map Prod.fst := by
  exact ⟨by decide, by decide⟩

/-- C3 witness: the amended theorem at `cexC3`: 서울 (present in both
years) carries delta 45 − 50, and 부산 (present only at the end year)
appears with the undefined delta. -/
theorem claim3_witness :
    ("서울", some ((45 : Int) - 50)) ∈
        ([("서울", some (-5)), ("부산", none)] : List (String × Option Int)) ∧
      ("부산", (none : Option Int)) ∈
        ([("서울", some (-5)), ("부산", none)] : List (String × Option Int)) := by
  have h := claim3_regional_delta cexC3 [("서울", some (-5)), ("부산", none)]
    2021 (by decide) (by decide) (by decide)
  exact ⟨h.2.1 "서울" 45 50 (by decide) (by decide) (by decide),
         h.2.2.1 "부산" (by decide) (by decide) (by decide)⟩

/-! ### C8: head/tail views over the ranked delta sequence -/

/-- The labels of the ranked output are the aligned index minus the national
code, so they are pairwise distinct under the data-model invariant. -/
theorem regionalDelta_nodup {l : List Row} {out : List (String × Option Int)}
    (hu : uniquePairs l) (hout : regionalDelta l = some out) : out.Nodup := by
  obtain ⟨Y, hy2, hmem, heq⟩ := regionalDelta_some_eq hout
  have hidx : (idxOf l Y).Nodup :=
    nodup_alignIndex _ _ (nodup_rowsAt_fst l Y hu) (nodup_rowsAt_fst l (Y - 4) hu)
  have hfil : ((idxOf l Y).filter (fun k => ¬ k = "전국")).Nodup :=
    hidx.filter _
  have hmap : (deltaList l Y).map Prod.fst =
      (idxOf l Y).filter (fun k => ¬ k = "전국") := by
    unfold deltaList
    rw [List.map_map]
    have h2 : (Prod.fst ∘ deltaEntry (rowsAt l Y) (rowsAt l (Y - 4))) = id :=
      funext (fun k => rfl)
    rw [h2, List.map_id]
  have h3 : ((deltaList l Y).map Prod.fst).Nodup := by
    rw [hmap]
    exact hfil
  rw [heq]
  exact ((keySorted_perm _ _).nodup_iff).mpr (h3.of_map _)

/-- C8: `top(3)` is the first 3 and `bottom(3)` the last 3 elements of the
single descending-sorted delta sequence (no re-sort for bottom), so both are
subsequences of the full ranking, and with at least 6 ranked regions no
entry appears in both. -/
theorem claim8_head_tail (l : List Row) (out t b : List (String × Option Int))
    (hu : uniquePairs l) (hout : regionalDelta l = some out)
    (ht : deltaTop3 l = some t) (hb : deltaBottom3 l = some b) :
    t.Sublist out ∧ b.Sublist out ∧
      (6 ≤ out.length → ∀ p ∈ t, ¬ p ∈ b) := by
  have ht2 : t = out.take 3 := by
    unfold deltaTop3 at ht
    rw [hout] at ht
    simp only [Option.map_some'] at ht
    injection ht with h2
    exact h2.symm
  have hb2 : b = out.drop (out.length - 3) := by
    unfold deltaBottom3 at hb
    rw [hout] at hb
    simp only [Option.map_some'] at hb
    injection hb with h2
    exact h2.symm
  subst ht2
  subst hb2
  refine ⟨List.take_sublist _ _, List.drop_sublist _ _, ?_⟩
  intro hlen p hpt hpb
  have hnodup : out.Nodup := regionalDelta_nodup hu hout
  have hdisj : List.Disjoint (out.take 3) (out.drop 3) :=
    List.disjoint_of_nodup_append ((List.take_append_drop 3 out).symm ▸ hnodup)
  have hpb3 : p ∈ out.drop 3 := by
    have heq2 : out.drop (out.length - 3) =
        (out.drop 3).drop (out.length - 6) := by
      rw [List.drop_drop]
      congr 1
      omega
    rw [heq2] at hpb
    exact List.mem_of_mem_drop hpb
  exact hdisj hpt hpb3

/-- Record set with 6 ranked regions for the C8 witness: base year 2017,
end year 2021, deltas 60 > 50 > 40 > 30 > 20 > 10. -/
def witC8 : List Row :=
  [mkRow "전국" 2017 100 0 0, mkRow "전국" 2021 300 0 0,
   mkRow "A" 2017 10 0 0, mkRow "A" 2021 70 0 0,
   mkRow "B" 2017 10 0 0, mkRow "B" 2021 60 0 0,
   mkRow "C" 2017 10 0 0, mkRow "C" 2021 50 0 0,
   mkRow "D" 2017 10 0 0, mkRow "D" 2021 40 0 0,
   mkRow "E" 2017 10 0 0, mkRow "E" 2021 30 0 0,
   mkRow "F" 2017 10 0 0, mkRow "F" 2021 20 0 0]

/-- The full ranked sequence of `witC8`. -/
def outW : List (String × Option Int) :=
  [("A", some 60), ("B", some 50), ("C", some 40),
   ("D", some 30), ("E", some 20), ("F", some 10)]

/-- C8 witness: on 6 ranked regions, the head-3 and tail-3 views are
subsequences of the ranking and the top entry does not reappear in the
bottom view. -/
theorem claim8_witness :
    (outW.take 3).Sublist outW ∧
      (outW.drop (outW.length - 3)).Sublist outW ∧
      ¬ ("A", (some 60 : Option Int)) ∈ outW.drop (outW.length - 3) := by
  have h := claim8_head_tail witC8 outW (outW.take 3)
    (outW.drop (outW.length - 3)) (by decide) (by decide) (by decide) (by decide)
  exact ⟨h.1, h.2.1, h.2.2 (by decide) ("A", some 60) (by decide)⟩

/-! ### C7: permutation invariance of the derived views -/

theorem nodup_years_national (l : List Row) (hu : uniquePairs l) :
    ((l.filter (fun r => decide (r.region = "전국"))).map
      (fun r => r.year)).Nodup := by
  have hP := nodup_pairs_filter l (fun r => decide (r.region = "전국")) hu
  have hconst : ∀ p ∈ (l.filter (fun r => decide (r.region = "전국"))).map
      (fun r => (r.region, r.year)), p.1 = "전국" := by
    intro p hp
    obtain ⟨r, hr, rfl⟩ := List.mem_map.mp hp
    have := List.of_mem_filter hr
    simpa using this
  have h2 := nodup_snd_of_const_fst _ hP hconst
  rw [List.map_map] at h2
  exact h2

theorem nodup_keyRegionYear (l : List Row) (hu : uniquePairs l) :
    (l.map (fun r => toLex (r.region.data, r.year))).Nodup := by
  have hu2 : (l.map (fun r => (r.region, r.year))).Nodup := hu
  have hinj : Function.Injective
      (fun p : String × Int => toLex (p.1.data, p.2)) := by
    intro p q h
    have h2 : (p.1.data, p.2) = (q.1.data, q.2) := toLex.injective h
    obtain ⟨h3, h4⟩ := Prod.mk.injEq _ _ _ _ ▸ h2
    exact Prod.ext (String.ext h3) h4
  have h5 := hu2.map hinj
  rw [List.map_map] at h5
  exact h5

/-- C7 (amended): given the data-model invariant of one record per
(region, year), the national forecast view, the top-K diff extraction (for
every k) and both pivots are invariant under any permutation of the cleaned
records. The regional delta ranking is the exception — its ordered output
can depend on the input row order when two regions tie on delta (see the
counterexample). -/
theorem claim7_perm_invariance (l1 l2 : List Row) (hp : List.Perm l1 l2)
    (hu : uniquePairs l1) :
    forecastView l1 = forecastView l2 ∧
    (∀ k : Nat, topYearOverYearChanges l1 k = topYearOverYearChanges l2 k) ∧
    regionByYearMatrix l1 = regionByYearMatrix l2 ∧
    yearByRegionSums l1 = yearByRegionSums l2 := by
  refine ⟨?_, ?_, ?_, ?_⟩
  · have hf : List.Perm (l1.filter (fun r => decide (r.region = "전국")))
        (l2.filter (fun r => decide (r.region = "전국"))) := hp.filter _
    have heq : sortByYear (l1.filter (fun r => decide (r.region = "전국"))) =
        sortByYear (l2.filter (fun r => decide (r.region = "전국"))) :=
      keySorted_eq_of_perm _ hf (nodup_years_national l1 hu)
    unfold forecastView
    rw [heq]
  · have heq : sortRegionYear l1 = sortRegionYear l2 :=
      keySorted_eq_of_perm _ hp (nodup_keyRegionYear l1 hu)
    intro k
    unfold topYearOverYearChanges yoyCandidates
    rw [heq]
  · funext regEn y
    unfold regionByYearMatrix
    by_cases hn : regEn = "National"
    · rw [if_pos hn, if_pos hn]
    · rw [if_neg hn, if_neg hn]
      have hv : List.Perm
          ((l1.filter (fun r =>
            decide (r.regionEn = some regEn ∧ r.year = y))).map (fun r => r.pop))
          ((l2.filter (fun r =>
            decide (r.regionEn = some regEn ∧ r.year = y))).map (fun r => r.pop)) :=
        (hp.filter _).map _
      have hmean : meanZ ((l1.filter (fun r =>
          decide (r.regionEn = some regEn ∧ r.year = y))).map (fun r => r.pop)) =
          meanZ ((l2.filter (fun r =>
          decide (r.regionEn = some regEn ∧ r.year = y))).map (fun r => r.pop)) := by
        unfold meanZ
        rw [hv.sum_eq, hv.length_eq]
      dsimp only
      rw [hmean, hv.length_eq]
  · funext y regEn
    unfold yearByRegionSums
    have hv : List.Perm
        (((l1.filter (fun r => decide (¬ r.region = "전국"))).filter (fun r =>
          decide (r.year = y ∧ r.regionEn = some regEn))).map (fun r => r.pop))
        (((l2.filter (fun r => decide (¬ r.region = "전국"))).filter (fun r =>
          decide (r.year = y ∧ r.regionEn = some regEn))).map (fun r => r.pop)) :=
      ((hp.filter _).filter _).map _
    dsimp only
    rw [hv.sum_eq, hv.length_eq]

/-- Record set with two regions tied on delta (A and B both gain 5
between 2017 and 2021). -/
def cexC7 : List Row :=
  [mkRow "전국" 2017 100 0 0, mkRow "전국" 2021 120 0 0,
   mkRow "A" 2017 10 0 0, mkRow "A" 2021 15 0 0,
   mkRow "B" 2017 20 0 0, mkRow "B" 2021 25 0 0]

/-- C7 counterexample: the regional delta ranking is NOT invariant under
permutation of the (one-record-per-pair) record set: reversing the rows of
`cexC7` swaps the order of the tied regions A and B in the output, so not
every derived view is permutation-invariant. -/
theorem claim7_counterexample :
    uniquePairs cexC7 ∧ List.Perm cexC7 cexC7.reverse ∧
      ¬ regionalDelta cexC7 = regionalDelta cexC7.reverse := by
  refine ⟨by decide, (List.reverse_perm cexC7).symm, by decide⟩

/-- C7 witness: the four permutation-invariant views agree on `cexC7` and
its reversal — the same reordering that flips the delta ranking. -/
theorem claim7_witness :
    forecastView cexC7 = forecastView cexC7.reverse ∧
      topYearOverYearChanges cexC7 100 = topYearOverYearChanges cexC7.reverse 100 ∧
      regionByYearMatrix cexC7 = regionByYearMatrix cexC7.reverse ∧
      yearByRegionSums cexC7 = yearByRegionSums cexC7.reverse := by
  have h := claim7_perm_invariance cexC7 cexC7.reverse
    ((List.reverse_perm cexC7).symm) (by decide)
  exact ⟨h.1, h.2.1 100, h.2.2.1, h.2.2.2⟩

end PopEDA
